import Mathlib

/-!
Shallow embedding of the `conman124/retirement` Monte Carlo retirement
simulator (Rust) and verification of its specification claims.

Modelling conventions:
* Rust `f64` values that only ever undergo exact arithmetic in the claims
  under consideration are modelled as `ℚ` (exact arithmetic idealisation).
* The withdrawal strategy (src/withdrawal.rs) divides by a possibly-zero
  total, so IEEE-754 special values are observable there.  For that module
  (and the account operations it calls) floats are modelled by `F64`:
  exact rationals extended with `nan` and signed infinities, with IEEE
  propagation rules.  Signed zero is collapsed to `val 0` (IEEE `==`, `min`
  and the arithmetic used here cannot distinguish `-0.0` from `0.0` in the
  computations involved).
* The mortality sampler applies `powf(1/12)`, modelled over `ℝ` with
  `Real.rpow`.
* Rust panics (`assert!`, out-of-bounds indexing) are modelled by `Option`:
  `none` is a panic.
* The random number generator is modelled by the sequence of values it
  produces: an arbitrary stream of draws (`ℕ → ℕ` for the uniform integer
  draws of the rate sampler, `ℕ → ℝ → Bool` for the Bernoulli draws of the
  mortality sampler).
-/

namespace Retirement

/-! ## Periods (src/montecarlo.rs)

A `Period` is a bare month index (`usize`); a `Lifespan` wraps a period
count. -/

structure Lifespan where
  periods : ℕ
deriving Repr, DecidableEq

/-- `Period::round_down_to_year`: `period - (period % 12)`. -/
def roundDownToYear (p : ℕ) : ℕ := p - p % 12

/-! ## Rates (src/rates.rs) -/

structure Rate where
  stocks : ℚ
  bonds : ℚ
  inflation : ℚ
deriving Repr, DecidableEq

/-! ## Asset allocation (src/assets.rs) -/

structure AssetAllocation where
  stocks_glide : List ℚ
deriving Repr, DecidableEq

/-- `AssetAllocation::new_linear_glide`.  The Rust code fills a vector of
length `periods_before + periods_glide` with `start_stocks` and then
overwrites index `i ∈ [periods_before, periods_before+periods_glide)` with
`frac * (end_stocks - start_stocks) + start_stocks` where
`frac = (i - periods_before + 1) / periods_glide`.  The `assert!`
preconditions are modelled by the `Option` guard. -/
def AssetAllocation.new_linear_glide (periods_before : ℕ) (start_stocks : ℚ)
    (periods_glide : ℕ) (end_stocks : ℚ) : Option AssetAllocation :=
  if 1 ≤ periods_before ∧ 1 ≤ periods_glide ∧
      0 ≤ start_stocks ∧ start_stocks ≤ 1 ∧ 0 ≤ end_stocks ∧ end_stocks ≤ 1 then
    some ⟨(List.range (periods_before + periods_glide)).map (fun i =>
      if i < periods_before then start_stocks
      else ((i - periods_before + 1 : ℕ) : ℚ) / (periods_glide : ℚ)
            * (end_stocks - start_stocks) + start_stocks)⟩
  else
    none

/-! ## Simulation summary (src/montecarlo.rs) -/

/-- `util::Ratio` as used by `Simulation::success_rate`. -/
structure Ratio where
  num : ℕ
  denom : ℕ
deriving Repr, DecidableEq

/-- The fields of `montecarlo::Run` that outlive `Run::populate`. -/
structure Run where
  rates : List Rate
  assets_adequate_periods : ℕ
  lifespan : Lifespan
  careerspan : Lifespan
deriving Repr, DecidableEq

structure Simulation where
  runs : List Run
deriving Repr, DecidableEq

/-- `Simulation::success_rate`: count the runs whose
`assets_adequate_periods >= lifespan.periods()`. -/
def Simulation.success_rate (s : Simulation) : Ratio :=
  { num := (s.runs.filter (fun a => decide (a.lifespan.periods ≤ a.assets_adequate_periods))).length,
    denom := s.runs.length }

/-! ## Taxes (src/taxes.rs) -/

inductive Money where
  | Taxable (amt : ℚ)
  | NonTaxable (amt : ℚ)
deriving Repr, DecidableEq

structure TaxResult where
  taxes : ℚ
  leftover : ℚ
deriving Repr, DecidableEq

structure TaxBracket where
  floor : ℚ
  rate : ℚ
deriving Repr, DecidableEq

structure TaxSettings where
  brackets : List TaxBracket
  adjust_bracket_floors_for_inflation : Bool
  deduction : ℚ
  adjust_deduction_for_inflation : Bool
deriving Repr, DecidableEq

structure Tax where
  settings : TaxSettings
  rates : List Rate
  gross_income : List ℚ
deriving Repr, DecidableEq

/-- The inflation factor used by `Tax::calculate_tax_amount` for both the
deduction and the bracket floors: when the `adjust` flag is set and
`year_begin > 0`, the product `rates[year_begin-12 .. year_begin]` of the
previous year's monthly inflation multipliers (the Rust slice panics when
`year_begin > rates.len()`, hence the `Option`); otherwise `1.0`. -/
def inflationFactor (rates : List Rate) (adjust : Bool) (yearBegin : ℕ) : Option ℚ :=
  if adjust ∧ 0 < yearBegin then
    if yearBegin ≤ rates.length then
      some (((rates.drop (yearBegin - 12)).take (yearBegin - (yearBegin - 12))).map Rate.inflation).prod
    else none
  else some 1

/-- The `for (bracket, next) in brackets.iter().zip(brackets[1..])` loop of
`Tax::calculate_tax_amount`: walks adjacent bracket pairs, breaking when
`money < bracket.floor * bracket_inflation`, otherwise accumulating
`(min(money, next.floor*infl) - bracket.floor*infl) * bracket.rate`. -/
def bracketPairTaxes (bracketInflation money : ℚ) : List TaxBracket → ℚ
  | b0 :: b1 :: rest =>
    if money < b0.floor * bracketInflation then 0
    else (min money (b1.floor * bracketInflation) - b0.floor * bracketInflation) * b0.rate
          + bracketPairTaxes bracketInflation money (b1 :: rest)
  | _ => 0

/-- The trailing top-bracket term of `Tax::calculate_tax_amount`:
`if money > last.floor*infl { (money - last.floor*infl) * last.rate }`. -/
def lastBracketTax (bracketInflation money : ℚ) (brackets : List TaxBracket) : ℚ :=
  match brackets.getLast? with
  | none => 0
  | some lastb =>
    if lastb.floor * bracketInflation < money
    then (money - lastb.floor * bracketInflation) * lastb.rate
    else 0

/-- `Tax::calculate_tax_amount`, with the period already rounded down to its
year begin (the body uses the period only through
`period.round_down_to_year()`).  `none` models the `assert!` on empty
brackets and the rate-slice panic. -/
def calcTaxAtYearBegin (st : TaxSettings) (rates : List Rate) (money0 : ℚ)
    (yearBegin : ℕ) : Option ℚ :=
  if st.brackets = [] then none
  else
    match inflationFactor rates st.adjust_deduction_for_inflation yearBegin,
          inflationFactor rates st.adjust_bracket_floors_for_inflation yearBegin with
    | some deductionInflation, some bracketInflation =>
      let money := money0 - st.deduction * deductionInflation
      some (bracketPairTaxes bracketInflation money st.brackets
            + lastBracketTax bracketInflation money st.brackets)
    | _, _ => none

def Tax.calculate_tax_amount (t : Tax) (money : ℚ) (period : ℕ) : Option ℚ :=
  calcTaxAtYearBegin t.settings t.rates money (roundDownToYear period)

/-- Sum of the Rust inclusive slice `l[a..=b]`. -/
def sliceSum (l : List ℚ) (a b : ℕ) : ℚ := ((l.drop a).take (b + 1 - a)).sum

/-- `Tax::collect_income_taxes`.  `NonTaxable` money is passed through
untouched.  For `Taxable` money the year-to-date gross income
`gross_income[year_begin ..= period]` is summed, the marginal tax
`calculate_tax_amount(ytd + amt) - calculate_tax_amount(ytd)` is charged and
`gross_income[period]` is increased by `amt`.  `none` models the panics
(out-of-bounds `period`, failing `calculate_tax_amount`). -/
def Tax.collect_income_taxes (t : Tax) (money : Money) (period : ℕ) :
    Option (TaxResult × Tax) :=
  match money with
  | .NonTaxable amt => some (⟨0, amt⟩, t)
  | .Taxable amt =>
    if period < t.gross_income.length then
      let yearBegin := roundDownToYear period
      let cumulativeAnnualGrossIncome := sliceSum t.gross_income yearBegin period
      match t.calculate_tax_amount cumulativeAnnualGrossIncome period with
      | none => none
      | some taxes_paid =>
        let t2 : Tax := { t with
          gross_income := t.gross_income.set period
            (t.gross_income.getD period 0 + amt) }
        match t2.calculate_tax_amount (cumulativeAnnualGrossIncome + amt) period with
        | none => none
        | some total_taxes =>
          let taxes := total_taxes - taxes_paid
          some (⟨taxes, amt - taxes⟩, t2)
    else none

/-- `Tax::new`: asserts `rates.len() == lifespan.periods()` and allocates a
zeroed per-month gross-income vector. -/
def Tax.new (settings : TaxSettings) (rates : List Rate) (lifespan : Lifespan) :
    Option Tax :=
  if rates.length = lifespan.periods then
    some ⟨settings, rates, List.replicate lifespan.periods 0⟩
  else none

/-! ## An IEEE-754-style float domain for the withdrawal module

`src/withdrawal.rs` divides by a possibly-zero total, so `NaN`/infinity
propagation is observable.  `F64` is the exact-rational idealisation of
`f64` extended with the special values.  Signed zero is collapsed into
`val 0`: in the computations modelled here (`+`, `-`, `*`, `/`, `f64::min`,
`==`) `-0.0` and `0.0` are interchangeable except as a denominator sign,
and every division below has a nonnegative denominator. -/

inductive F64 where
  | nan : F64
  | pinf : F64
  | ninf : F64
  | val (q : ℚ) : F64
deriving Repr, DecidableEq

namespace F64

/-- IEEE addition. -/
def add : F64 → F64 → F64
  | nan, _ => nan
  | _, nan => nan
  | pinf, ninf => nan
  | ninf, pinf => nan
  | pinf, _ => pinf
  | _, pinf => pinf
  | ninf, _ => ninf
  | _, ninf => ninf
  | val a, val b => val (a + b)

/-- IEEE subtraction. -/
def sub : F64 → F64 → F64
  | nan, _ => nan
  | _, nan => nan
  | pinf, pinf => nan
  | ninf, ninf => nan
  | pinf, _ => pinf
  | _, pinf => ninf
  | ninf, _ => ninf
  | _, ninf => pinf
  | val a, val b => val (a - b)

/-- IEEE multiplication (`inf * 0 = nan`). -/
def mul : F64 → F64 → F64
  | nan, _ => nan
  | _, nan => nan
  | pinf, pinf => pinf
  | pinf, ninf => ninf
  | ninf, pinf => ninf
  | ninf, ninf => pinf
  | pinf, val b => if b = 0 then nan else if 0 < b then pinf else ninf
  | ninf, val b => if b = 0 then nan else if 0 < b then ninf else pinf
  | val a, pinf => if a = 0 then nan else if 0 < a then pinf else ninf
  | val a, ninf => if a = 0 then nan else if 0 < a then ninf else pinf
  | val a, val b => val (a * b)

/-- IEEE division (`0/0 = nan`, `x/0 = ±inf` for `x ≠ 0` with positive zero
as the denominator, `inf/inf = nan`, `x/inf = 0`). -/
def div : F64 → F64 → F64
  | nan, _ => nan
  | _, nan => nan
  | pinf, pinf => nan
  | pinf, ninf => nan
  | ninf, pinf => nan
  | ninf, ninf => nan
  | pinf, val b => if 0 ≤ b then pinf else ninf
  | ninf, val b => if 0 ≤ b then ninf else pinf
  | val _, pinf => val 0
  | val _, ninf => val 0
  | val a, val b =>
    if b = 0 then (if a = 0 then nan else if 0 < a then pinf else ninf)
    else val (a / b)

/-- Rust `f64::min`: returns the other operand when one is `NaN`. -/
def fmin : F64 → F64 → F64
  | nan, b => b
  | a, nan => a
  | ninf, _ => ninf
  | _, ninf => ninf
  | pinf, b => b
  | a, pinf => a
  | val a, val b => val (min a b)

/-- IEEE `==` (any comparison with `NaN` is false). -/
def beq : F64 → F64 → Bool
  | val a, val b => decide (a = b)
  | pinf, pinf => true
  | ninf, ninf => true
  | _, _ => false

/-- IEEE `<=` (any comparison with `NaN` is false). -/
def fle : F64 → F64 → Bool
  | nan, _ => false
  | _, nan => false
  | ninf, _ => true
  | _, ninf => false
  | _, pinf => true
  | pinf, _ => false
  | val a, val b => decide (a ≤ b)

end F64

/-! ## Accounts (src/assets.rs) -/

structure AccountSettings where
  starting_balance : F64
  allocation : AssetAllocation
deriving Repr, DecidableEq

structure Account where
  starting_balance : F64
  balance : List F64
  allocation : AssetAllocation
  rates : List Rate
deriving Repr, DecidableEq

/-- `AccountSettings::create_account`: asserts
`rates.len() == lifespan.periods()` and allocates a zeroed per-month
balance vector. -/
def AccountSettings.create_account (s : AccountSettings) (lifespan : Lifespan)
    (rates : List Rate) : Option Account :=
  if rates.length = lifespan.periods then
    some ⟨s.starting_balance, List.replicate lifespan.periods (F64.val 0),
          s.allocation, rates⟩
  else none

/-- `Account::withdraw_from_period`: asserts `period < balance.len()` and
`amount <= balance[period]` (an IEEE comparison, false on `NaN`), then
subtracts. -/
def Account.withdraw_from_period (acct : Account) (amount : F64) (period : ℕ) :
    Option Account :=
  if period < acct.balance.length ∧
      amount.fle (acct.balance.getD period (F64.val 0)) = true then
    some { acct with
      balance := acct.balance.set period
        ((acct.balance.getD period (F64.val 0)).sub amount) }
  else none

/-- `Account::attempt_withdrawal_with_shortfall`: computes
`shortfall = amount - min(amount, balance[period])`, withdraws
`min(amount, balance[period])` and returns the shortfall.  Reading
`balance[period]` panics when out of bounds. -/
def Account.attempt_withdrawal_with_shortfall (acct : Account) (amount : F64)
    (period : ℕ) : Option (F64 × Account) :=
  if period < acct.balance.length then
    let b := acct.balance.getD period (F64.val 0)
    let shortfall := amount.sub (amount.fmin b)
    match acct.withdraw_from_period (amount.fmin b) period with
    | some acct2 => some (shortfall, acct2)
    | none => none
  else none

/-! ## Withdrawal strategy (src/withdrawal.rs) -/

structure WithdrawalStrategy where
  withdrawals_per_account : List F64
  period : ℕ
deriving Repr, DecidableEq

/-- `WithdrawalStrategy::new`: sums the period-`period` balances and splits
`monthly_withdrawal` proportionally, `w_i = (balance_i / total) *
monthly_withdrawal`.  Reading `balance()[period]` panics when out of
bounds. -/
def WithdrawalStrategy.new (monthly_withdrawal : F64) (accounts : List Account)
    (period : ℕ) : Option WithdrawalStrategy :=
  if accounts.all (fun a => decide (period < a.balance.length)) then
    let total := (accounts.map (fun a => a.balance.getD period (F64.val 0))).foldl
      F64.add (F64.val 0)
    some ⟨accounts.map (fun a =>
      ((a.balance.getD period (F64.val 0)).div total).mul monthly_withdrawal),
      period⟩
  else none

/-- The `for i in 0..accounts.len()` loop of `WithdrawalStrategy::execute`:
walk the accounts, applying `attempt_withdrawal_with_shortfall` with the
matching per-account withdrawal and accumulating the shortfalls.  Indexing
`withdrawals_per_account[i]` panics when there are fewer withdrawals than
accounts. -/
def execLoop (period : ℕ) : List Account → List F64 → F64 →
    Option (F64 × List Account)
  | [], _, acc => some (acc, [])
  | _ :: _, [], _ => none
  | a :: rest, w :: ws, acc =>
    match a.attempt_withdrawal_with_shortfall w period with
    | none => none
    | some (sf, a2) =>
      match execLoop period rest ws (acc.add sf) with
      | none => none
      | some (total, rest2) => some (total, a2 :: rest2)

/-- `WithdrawalStrategy::execute`: `Err(shortfall)` when the accumulated
shortfall `!= 0.0` (an IEEE comparison, true for `NaN`), `Ok(())`
otherwise.  Also returns the mutated accounts. -/
def WithdrawalStrategy.execute (s : WithdrawalStrategy)
    (accounts : List Account) : Option (Except F64 Unit × List Account) :=
  match execLoop s.period accounts s.withdrawals_per_account (F64.val 0) with
  | none => none
  | some (shortfall, accounts2) =>
    if shortfall.beq (F64.val 0) then some (Except.ok (), accounts2)
    else some (Except.error shortfall, accounts2)

/-! ## Rate generation (src/rates.rs)

`generate_rates_with_distribution` repeatedly samples an integer from the
distribution (modelled as the stream `draws : ℕ → ℕ` of sampled values),
selects a contiguous block of the historical pool, truncates it so the
output never exceeds `length` entries and appends it, stopping once exactly
`length` entries have been produced. -/

/-- The block of the pool selected for the sampled integer `num`:
* `num < sublength-1`: `rates_in[..num+1]`;
* `num ≥ rates_in.len()`: `rates_in[num-sublength+1..]`;
* otherwise: `rates_in[num+1-sublength..num+1]`.
(In the last two branches `num + 1 ≥ sublength`, so the truncated `ℕ`
subtraction `num + 1 - sublength` agrees with the integer `num - sublength
+ 1` of the source.) -/
def blockSlice (rates_in : List Rate) (sublength num : ℕ) : List Rate :=
  if num < sublength - 1 then
    rates_in.take (num + 1)
  else if rates_in.length ≤ num then
    rates_in.drop (num + 1 - sublength)
  else
    (rates_in.take (num + 1)).drop (num + 1 - sublength)

/-- The `loop` of `generate_rates_with_distribution`, with an explicit fuel
parameter for termination (`none` means the fuel ran out, which the
theorems show cannot happen with fuel `length + 1`).  `i` indexes the
stream of sampled values. -/
def generateLoop (rates_in : List Rate) (sublength length : ℕ) (draws : ℕ → ℕ) :
    ℕ → ℕ → List Rate → Option (List Rate)
  | 0, _, _ => none
  | fuel + 1, i, rates =>
    let slice := blockSlice rates_in sublength (draws i)
    let slice2 := slice.take (min slice.length (length - rates.length))
    let rates2 := rates ++ slice2
    if rates2.length = length then some rates2
    else generateLoop rates_in sublength length draws fuel (i + 1) rates2

/-- `generate_rates_with_distribution`: the `assert!` preconditions
(`sublength ≤ rates_in.len()`, `sublength ≠ 0`, `rates_in.len() ≠ 0`) are
modelled by the `Option` guard. -/
def generate_rates_with_distribution (rates_in : List Rate)
    (sublength length : ℕ) (draws : ℕ → ℕ) : Option (List Rate) :=
  if sublength ≤ rates_in.length ∧ sublength ≠ 0 ∧ rates_in.length ≠ 0 then
    generateLoop rates_in sublength length draws (length + 1) 0 []
  else none

/-! ## Mortality sampling (src/person.rs, `mod life_expectancy`) -/

/-- The monthly survival probability `(1.0 - prob).powf(1.0/12.0)`. -/
noncomputable def monthlySurvival (prob : ℝ) : ℝ :=
  (1 - prob) ^ ((1 : ℝ) / 12)

/-- `convert_annual_death_to_monthly_life`: for the annual death
probability at position `pos`, push `(1-prob)^(1/12)` exactly `12 - offset`
times when `pos = 0` and exactly `12` times otherwise.  The `assert!`
preconditions (`rates.len() ≥ 1`, `offset < 12`) are modelled by the
`Option` guard. -/
noncomputable def convert_annual_death_to_monthly_life (rates : List ℝ)
    (offset : ℕ) : Option (List ℝ) :=
  if 1 ≤ rates.length ∧ offset < 12 then
    some ((rates.enum.map (fun pr =>
      List.replicate (if pr.1 = 0 then 12 - offset else 12)
        (monthlySurvival pr.2))).flatten)
  else none

/-- The sampling loop of `calculate_periods`: at step `i` draw
`Bernoulli(life_rates[min(i, life_rates.len() - 1)])` (the outcome stream
`lived : ℕ → ℝ → Bool` models `rng.gen_bool`); return the first `i` whose
draw is false.  The fuel makes the possibly-endless loop total; `none`
means no death occurred within `fuel` steps. -/
def calculatePeriodsLoop (lived : ℕ → ℝ → Bool) (life_rates : List ℝ) :
    ℕ → ℕ → Option ℕ
  | 0, _ => none
  | fuel + 1, i =>
    if lived i (life_rates.getD (min i (life_rates.length - 1)) 0) = false then
      some i
    else calculatePeriodsLoop lived life_rates fuel (i + 1)

/-- `calculate_periods`: convert the annual death table and run the
Bernoulli loop. -/
noncomputable def calculate_periods (lived : ℕ → ℝ → Bool)
    (annual_death : List ℝ) (offset : ℕ) (fuel : ℕ) : Option (Option ℕ) :=
  (convert_annual_death_to_monthly_life annual_death offset).map
    (fun life_rates => calculatePeriodsLoop lived life_rates fuel 0)

/-- A sequence of `collect_income_taxes` calls on `Taxable` amounts:
`collectAll t calls` threads the collector state through the calls (each
call is an `(amount, period)` pair) and sums the taxes collected. -/
def collectAll (t : Tax) : List (ℚ × ℕ) → Option (ℚ × Tax)
  | [] => some (0, t)
  | (amt, p) :: rest =>
    match t.collect_income_taxes (Money.Taxable amt) p with
    | none => none
    | some (res, t2) =>
      match collectAll t2 rest with
      | none => none
      | some (sumRest, t3) => some (res.taxes + sumRest, t3)

/-- The block selection as the specification words it (spec §4.2): for a
sampled `k`,
* `k < b−1`: `pool[0 .. k+1]`,
* `k ≥ R`: `pool[k − b + 1 .. R]`,
* else: `pool[k − b + 1 .. k + 1]` (a full block of length `b`).
(The integer `k − b + 1` is written `k + 1 - b` because in the applicable
branches `k + 1 ≥ b`, where `ℕ` subtraction agrees with it.) -/
def specBlockSlice (pool : List Rate) (b k : ℕ) : List Rate :=
  if k < b - 1 then pool.take (k + 1)
  else if pool.length ≤ k then pool.drop (k + 1 - b)
  else (pool.drop (k + 1 - b)).take b

/-- The generation loop as the specification words it: append the selected
block, truncated so the total length never exceeds `L`; stop when the total
length equals `L`. -/
def specGenerateLoop (pool : List Rate) (b L : ℕ) (draws : ℕ → ℕ) :
    ℕ → ℕ → List Rate → Option (List Rate)
  | 0, _, _ => none
  | fuel + 1, i, acc =>
    let acc2 := acc ++ (specBlockSlice pool b (draws i)).take (L - acc.length)
    if acc2.length = L then some acc2
    else specGenerateLoop pool b L draws fuel (i + 1) acc2

/-! ## Jobs (src/income.rs): the constructors -/

inductive Fica where
  | Participant (ss_rate : ℚ)
  | Exempt
deriving Repr, DecidableEq

structure RaiseSettings where
  amount : ℚ
  adjust_for_inflation : Bool
deriving Repr, DecidableEq

inductive AccountContributionSource where
  | Employee
  | Employer
deriving Repr, DecidableEq

inductive AccountContributionTaxability where
  | PreTax
  | PostTax
deriving Repr, DecidableEq

structure AccountContributionSettings where
  account : AccountSettings
  contribution_pct : ℚ
  contribution_source : AccountContributionSource
  tax : AccountContributionTaxability
deriving Repr, DecidableEq

structure AccountContribution where
  account : Account
  contribution_pct : ℚ
  contribution_source : AccountContributionSource
  tax : AccountContributionTaxability
deriving Repr, DecidableEq

structure JobSettings where
  starting_gross_income : ℚ
  fica : Fica
  raise : RaiseSettings
  account_contribution_settings : List AccountContributionSettings
deriving Repr, DecidableEq

structure Job where
  starting_gross_income : ℚ
  gross_income : List ℚ
  net_income : List ℚ
  fica : Fica
  raise : RaiseSettings
  rates : List Rate
  account_contributions : List AccountContribution
deriving Repr, DecidableEq

/-- `AccountContributionSettings::create_account_contribution`. -/
def AccountContributionSettings.create_account_contribution
    (s : AccountContributionSettings) (lifespan : Lifespan)
    (rates : List Rate) : Option AccountContribution :=
  (s.account.create_account lifespan rates).map
    (fun a => ⟨a, s.contribution_pct, s.contribution_source, s.tax⟩)

/-- `JobSettings::create_job`: asserts `lifespan.periods() == rates.len()`,
allocates zeroed career-length gross/net income vectors and creates one
account per contribution setting (each spanning the full lifespan). -/
def JobSettings.create_job (js : JobSettings) (lifespan careerspan : Lifespan)
    (rates : List Rate) : Option Job :=
  if lifespan.periods = rates.length then
    match js.account_contribution_settings.mapM
        (fun s => s.create_account_contribution lifespan rates) with
    | some account_contributions =>
      some ⟨js.starting_gross_income,
            List.replicate careerspan.periods 0,
            List.replicate careerspan.periods 0,
            js.fica, js.raise, rates, account_contributions⟩
    | none => none
  else none

/-! ## Theorems -/

/-- C1: `success_rate()` returns the ratio whose numerator is the number of
runs with `assets_adequate_periods ≥ lifespan.periods` and whose
denominator is the total number of runs; a run counts as successful iff
`assets_adequate_periods ≥ lifespan.periods`. -/
theorem success_rate_counts_adequate_runs (s : Simulation) :
    (s.success_rate).num =
      (s.runs.filter
        (fun r => decide (r.assets_adequate_periods ≥ r.lifespan.periods))).length
    ∧ (s.success_rate).denom = s.runs.length
    ∧ ∀ r : Run,
        (decide (r.lifespan.periods ≤ r.assets_adequate_periods) = true ↔
          r.assets_adequate_periods ≥ r.lifespan.periods) := by
  refine ⟨rfl, rfl, fun r => ?_⟩
  simp [ge_iff_le]

/-- C9: `collect_income_taxes` on `NonTaxable` money returns `(0, amt)` and
leaves the collector state — in particular the `gross_income` vector —
completely unchanged. -/
theorem collect_nontaxable_leaves_state_unchanged (t : Tax) (a : ℚ) (p : ℕ) :
    t.collect_income_taxes (Money.NonTaxable a) p = some (⟨0, a⟩, t) := rfl

/-- C3: every successful `collect_income_taxes` call satisfies
`taxes + leftover = amt` for `Taxable` money, and returns `taxes = 0`,
`leftover = amt` for `NonTaxable` money. -/
theorem collect_income_taxes_conserves_money (t : Tax) (a : ℚ) (p : ℕ) :
    (∀ res t2, t.collect_income_taxes (Money.Taxable a) p = some (res, t2) →
      res.taxes + res.leftover = a)
    ∧ (∀ res t2, t.collect_income_taxes (Money.NonTaxable a) p = some (res, t2) →
      res.taxes = 0 ∧ res.leftover = a) := by
  constructor
  · intro res t2 h
    simp only [Tax.collect_income_taxes] at h
    split at h
    · split at h
      · exact absurd h (by simp)
      · split at h
        · exact absurd h (by simp)
        · rw [Option.some_inj] at h
          injection h with hres hst
          subst hres
          simp only
          ring
    · exact absurd h (by simp)
  · intro res t2 h
    simp only [Tax.collect_income_taxes, Option.some_inj] at h
    injection h with hres hst
    subst hres
    exact ⟨rfl, rfl⟩

/-- Witness for C3 at a concrete collector: a 200% single-bracket collector
taxes `Taxable 100` as `(200, -100)` with `200 + (-100) = 100`, and passes
`NonTaxable 100` through as `(0, 100)`. -/
theorem collect_income_taxes_conserves_money_witness :
    (200 : ℚ) + (-100 : ℚ) = 100 ∧ ((0 : ℚ) = 0 ∧ (100 : ℚ) = 100) := by
  refine ⟨?_, ?_⟩
  · exact (collect_income_taxes_conserves_money
      ⟨⟨[⟨0, 2⟩], false, 0, false⟩, [], [0]⟩ 100 0).1 ⟨200, -100⟩
      ⟨⟨[⟨0, 2⟩], false, 0, false⟩, [], [100]⟩ (by
        norm_num [Tax.collect_income_taxes, Tax.calculate_tax_amount,
          calcTaxAtYearBegin, inflationFactor, bracketPairTaxes, lastBracketTax,
          sliceSum, roundDownToYear])
  · exact (collect_income_taxes_conserves_money
      ⟨⟨[⟨0, 2⟩], false, 0, false⟩, [], [0]⟩ 100 0).2 ⟨0, 100⟩
      ⟨⟨[⟨0, 2⟩], false, 0, false⟩, [], [0]⟩ rfl

/-- C6: for a nonnegative balance `b` at a valid period and a nonnegative
requested amount `a`, `attempt_withdrawal_with_shortfall` never fails,
withdraws `min(a, b)` (leaving `b - min(a, b)`), returns the shortfall
`a - min(a, b)`, and the remaining balance is nonnegative. -/
theorem attempt_withdrawal_with_shortfall_spec (acct : Account) (p : ℕ) (a b : ℚ)
    (hp : p < acct.balance.length)
    (hb : acct.balance.getD p (F64.val 0) = F64.val b)
    (hb0 : 0 ≤ b) (ha0 : 0 ≤ a) :
    acct.attempt_withdrawal_with_shortfall (F64.val a) p =
      some (F64.val (a - min a b),
            { acct with balance := acct.balance.set p (F64.val (b - min a b)) })
    ∧ 0 ≤ b - min a b := by
  refine ⟨?_, by simp [min_le_right a b]⟩
  unfold Account.attempt_withdrawal_with_shortfall Account.withdraw_from_period
  rw [if_pos hp, hb]
  have hle : a ⊓ b ≤ b := min_le_right a b
  simp [F64.fmin, F64.sub, F64.fle, hp, hle]

/-- Witness for C6: withdrawing 6 from a single-period balance of 4
withdraws everything and reports shortfall 2. -/
theorem attempt_withdrawal_with_shortfall_spec_witness :
    (⟨F64.val 0, [F64.val 4], ⟨[1]⟩, []⟩ : Account).attempt_withdrawal_with_shortfall
        (F64.val 6) 0 =
      some (F64.val (6 - min 6 4),
            { (⟨F64.val 0, [F64.val 4], ⟨[1]⟩, []⟩ : Account) with
              balance := [F64.val 4].set 0 (F64.val (4 - min 6 4)) })
    ∧ (0 : ℚ) ≤ 4 - min 6 4 :=
  attempt_withdrawal_with_shortfall_spec ⟨F64.val 0, [F64.val 4], ⟨[1]⟩, []⟩ 0 6 4
    (by norm_num) rfl (by norm_num) (by norm_num)

/-- C7 counterexample: for `new_linear_glide(4, 1.0, 4, 0.5)` the entry at
position `n_pre + i` with `i = 1` is `0.75`, whereas the claimed formula
`s0 + (i/n_glide)·(s1 − s0)` gives `0.875` there. -/
theorem new_linear_glide_counterexample :
    ((AssetAllocation.new_linear_glide 4 1 4 (1/2)).map
        (fun alloc => alloc.stocks_glide.getD (4 + 1) 0)) = some (3/4)
    ∧ (3/4 : ℚ) ≠ 1 + ((1 : ℚ) / 4) * (1/2 - 1) := by
  constructor
  · norm_num [AssetAllocation.new_linear_glide, List.range_succ]
  · norm_num

/-- C7 (amended: the glide formula holds at position `n_pre + i - 1`, not
`n_pre + i`): for `n_pre ≥ 1`, `n_glide ≥ 1` and `s0, s1 ∈ [0,1]`,
`new_linear_glide` succeeds with a stocks vector of length
`n_pre + n_glide` whose first `n_pre` positions equal `s0` and whose
position `n_pre + i - 1` (for `1 ≤ i ≤ n_glide`) equals
`s0 + (i/n_glide)·(s1 − s0)`. -/
theorem new_linear_glide_spec (n_pre n_glide : ℕ) (s0 s1 : ℚ)
    (h1 : 1 ≤ n_pre) (h2 : 1 ≤ n_glide)
    (hs00 : 0 ≤ s0) (hs01 : s0 ≤ 1) (hs10 : 0 ≤ s1) (hs11 : s1 ≤ 1) :
    (AssetAllocation.new_linear_glide n_pre s0 n_glide s1).isSome = true
    ∧ (((AssetAllocation.new_linear_glide n_pre s0 n_glide s1).map
          AssetAllocation.stocks_glide).getD []).length = n_pre + n_glide
    ∧ (∀ i, i < n_pre →
        (((AssetAllocation.new_linear_glide n_pre s0 n_glide s1).map
          AssetAllocation.stocks_glide).getD []).getD i 0 = s0)
    ∧ (∀ i, 1 ≤ i → i ≤ n_glide →
        (((AssetAllocation.new_linear_glide n_pre s0 n_glide s1).map
          AssetAllocation.stocks_glide).getD []).getD (n_pre + i - 1) 0 =
          s0 + ((i : ℚ) / (n_glide : ℚ)) * (s1 - s0)) := by
  have hg : AssetAllocation.new_linear_glide n_pre s0 n_glide s1 =
      some ⟨(List.range (n_pre + n_glide)).map (fun i =>
        if i < n_pre then s0
        else ((i - n_pre + 1 : ℕ) : ℚ) / (n_glide : ℚ) * (s1 - s0) + s0)⟩ := by
    unfold AssetAllocation.new_linear_glide
    rw [if_pos ⟨h1, h2, hs00, hs01, hs10, hs11⟩]
  rw [hg]
  refine ⟨rfl, by simp, ?_, ?_⟩
  · intro i hi
    have hilt : i < n_pre + n_glide := lt_of_lt_of_le hi (Nat.le_add_right _ _)
    simp only [Option.map_some', Option.getD_some]
    rw [List.getD_eq_getElem?_getD, List.getElem?_map, List.getElem?_range hilt]
    simp [hi]
  · intro i hi1 hi2
    have hilt : n_pre + i - 1 < n_pre + n_glide := by omega
    simp only [Option.map_some', Option.getD_some]
    rw [List.getD_eq_getElem?_getD, List.getElem?_map, List.getElem?_range hilt]
    have hnot : ¬ (n_pre + i - 1 < n_pre) := by omega
    have hidx : n_pre + i - 1 - n_pre + 1 = i := by omega
    simp only [Option.map_some', Option.getD_some, if_neg hnot, hidx]
    ring

/-- Witness for C7's amended theorem at `new_linear_glide(4, 1.0, 4, 0.5)`. -/
theorem new_linear_glide_spec_witness :
    (AssetAllocation.new_linear_glide 4 1 4 (1/2)).isSome = true
    ∧ (((AssetAllocation.new_linear_glide 4 1 4 (1/2)).map
          AssetAllocation.stocks_glide).getD []).length = 4 + 4
    ∧ (∀ i, i < 4 →
        (((AssetAllocation.new_linear_glide 4 1 4 (1/2)).map
          AssetAllocation.stocks_glide).getD []).getD i 0 = 1)
    ∧ (∀ i, 1 ≤ i → i ≤ 4 →
        (((AssetAllocation.new_linear_glide 4 1 4 (1/2)).map
          AssetAllocation.stocks_glide).getD []).getD (4 + i - 1) 0 =
          1 + ((i : ℚ) / (4 : ℚ)) * (1/2 - 1)) :=
  new_linear_glide_spec 4 4 1 (1/2) (by norm_num) (by norm_num)
    (by norm_num) (by norm_num) (by norm_num) (by norm_num)

/-- Helper for C10: when the rates vector has the lifespan's length, every
`create_account_contribution` succeeds, so the `mapM` in `create_job`
succeeds. -/
lemma mapM_create_account_contribution (ls : Lifespan) (rates : List Rate)
    (h : rates.length = ls.periods) (l : List AccountContributionSettings) :
    l.mapM (fun s => s.create_account_contribution ls rates) =
      some (l.map (fun s =>
        ⟨⟨s.account.starting_balance, List.replicate ls.periods (F64.val 0),
          s.account.allocation, rates⟩,
         s.contribution_pct, s.contribution_source, s.tax⟩)) := by
  induction l with
  | nil => rfl
  | cons s rest ih =>
    rw [List.mapM_cons, ih]
    simp [AccountContributionSettings.create_account_contribution,
      AccountSettings.create_account, h]

/-- C10: `create_account`, `Tax::new` and `create_job` all panic exactly
when the shared rates vector's length differs from the lifespan's period
count; under the length precondition they succeed, the account balance
vector and the collector's gross-income vector being `lifespan.periods()`
zeroes (for `create_job`, every created contribution account's balance
vector). -/
theorem constructors_require_rates_length (ts : TaxSettings)
    (acs : AccountSettings) (js : JobSettings) (rates : List Rate)
    (ls cs : Lifespan) :
    (rates.length ≠ ls.periods →
      Tax.new ts rates ls = none
      ∧ acs.create_account ls rates = none
      ∧ js.create_job ls cs rates = none)
    ∧ (rates.length = ls.periods →
      Tax.new ts rates ls = some ⟨ts, rates, List.replicate ls.periods 0⟩
      ∧ acs.create_account ls rates =
          some ⟨acs.starting_balance, List.replicate ls.periods (F64.val 0),
                acs.allocation, rates⟩
      ∧ ∃ j, js.create_job ls cs rates = some j ∧
          ∀ ac ∈ j.account_contributions,
            ac.account.balance = List.replicate ls.periods (F64.val 0)) := by
  constructor
  · intro hne
    refine ⟨?_, ?_, ?_⟩
    · simp [Tax.new, hne]
    · simp [AccountSettings.create_account, hne]
    · unfold JobSettings.create_job
      rw [if_neg (fun h : ls.periods = rates.length => hne h.symm)]
  · intro heq
    refine ⟨by simp [Tax.new, heq], by simp [AccountSettings.create_account, heq], ?_⟩
    unfold JobSettings.create_job
    rw [if_pos heq.symm, mapM_create_account_contribution ls rates heq]
    refine ⟨_, rfl, ?_⟩
    intro ac hac
    simp only [List.mem_map] at hac
    obtain ⟨s, -, rfl⟩ := hac
    rfl

/-- Witness for C10: with a 1-period lifespan, a length-0 rates vector is
rejected and a length-1 rates vector yields zeroed singleton vectors. -/
theorem constructors_require_rates_length_witness :
    ((0 : ℕ) ≠ 1 ∧ (1 : ℕ) = 1)
    ∧ Tax.new ⟨[], false, 0, false⟩ [] ⟨1⟩ = none
    ∧ Tax.new ⟨[], false, 0, false⟩ [⟨1, 1, 1⟩] ⟨1⟩ =
        some ⟨⟨[], false, 0, false⟩, [⟨1, 1, 1⟩], List.replicate 1 0⟩ := by
  refine ⟨⟨by decide, rfl⟩, ?_, ?_⟩
  · exact ((constructors_require_rates_length ⟨[], false, 0, false⟩
      ⟨F64.val 0, ⟨[1]⟩⟩ ⟨0, Fica.Exempt, ⟨1, false⟩, []⟩ [] ⟨1⟩ ⟨1⟩).1
      (by decide)).1
  · exact ((constructors_require_rates_length ⟨[], false, 0, false⟩
      ⟨F64.val 0, ⟨[1]⟩⟩ ⟨0, Fica.Exempt, ⟨1, false⟩, []⟩ [⟨1, 1, 1⟩] ⟨1⟩ ⟨1⟩).2
      rfl).1

/-- Summation of rational `F64` values (`iter().sum::<f64>()` starts from
`0.0` and folds with `+`). -/
lemma foldl_add_val (bs : List ℚ) : ∀ acc : ℚ,
    (bs.map F64.val).foldl F64.add (F64.val acc) = F64.val (acc + bs.sum) := by
  induction bs with
  | nil => intro acc; simp
  | cons b rest ih =>
    intro acc
    simp only [List.map_cons, List.foldl_cons, List.sum_cons]
    have : (F64.val acc).add (F64.val b) = F64.val (acc + b) := rfl
    rw [this, ih]
    congr 1
    ring

/-- The execution loop on rational balances and rational withdrawals:
it never fails and accumulates exactly the rational shortfalls
`q_i - min(q_i, b_i)`. -/
lemma execLoop_val (p : ℕ) : ∀ (accounts : List Account) (bs qs : List ℚ) (acc : ℚ),
    accounts.map (fun a => a.balance.getD p (F64.val 0)) = bs.map F64.val →
    (∀ a ∈ accounts, p < a.balance.length) →
    qs.length = accounts.length →
    ∃ accts2, execLoop p accounts (qs.map F64.val) (F64.val acc) =
      some (F64.val (acc + ((qs.zip bs).map (fun pr => pr.1 - min pr.1 pr.2)).sum),
            accts2) := by
  intro accounts
  induction accounts with
  | nil =>
    intro bs qs acc _ _ hlen
    have hq : qs = [] := by simpa using hlen
    subst hq
    exact ⟨[], by simp [execLoop]⟩
  | cons a rest ih =>
    intro bs qs acc hmap hvalid hlen
    cases bs with
    | nil => exact absurd hmap (by simp)
    | cons b bs2 =>
      cases qs with
      | nil => exact absurd hlen (by simp)
      | cons q qs2 =>
        simp only [List.map_cons, List.cons.injEq] at hmap
        obtain ⟨hab, hmap2⟩ := hmap
        have hpa : p < a.balance.length := hvalid a (List.mem_cons_self a rest)
        have hstep : a.attempt_withdrawal_with_shortfall (F64.val q) p =
            some (F64.val (q - min q b),
              { a with balance := a.balance.set p (F64.val (b - min q b)) }) := by
          unfold Account.attempt_withdrawal_with_shortfall Account.withdraw_from_period
          rw [if_pos hpa, hab]
          have hle : q ⊓ b ≤ b := min_le_right q b
          simp [F64.fmin, F64.sub, F64.fle, hpa, hle]
        obtain ⟨accts2, hrec⟩ := ih bs2 qs2 (acc + (q - min q b)) hmap2
          (fun x hx => hvalid x (List.mem_cons_of_mem a hx))
          (by simpa using hlen)
        refine ⟨{ a with balance := a.balance.set p (F64.val (b - min q b)) } :: accts2, ?_⟩
        have hsum : acc + ((q :: qs2).zip (b :: bs2) |>.map
            (fun pr => pr.1 - min pr.1 pr.2)).sum =
            acc + (q - min q b) +
              ((qs2.zip bs2).map (fun pr => pr.1 - min pr.1 pr.2)).sum := by
          simp only [List.zip_cons_cons, List.map_cons, List.sum_cons]
          ring
        rw [hsum]
        simp only [List.map_cons, execLoop, hstep]
        have hacc : (F64.val acc).add (F64.val (q - min q b)) =
            F64.val (acc + (q - min q b)) := rfl
        rw [hacc, hrec]

/-- `x.add nan = nan` for every `x`. -/
lemma add_nan (x : F64) : x.add F64.nan = F64.nan := by
  cases x <;> rfl

/-- The execution loop on all-zero rational balances with all-`NaN`
withdrawals: it never fails and the accumulated shortfall of a nonempty
account list is `NaN`. -/
lemma execLoop_nan (p : ℕ) : ∀ (accounts : List Account) (acc : F64),
    (∀ a ∈ accounts, p < a.balance.length ∧
      a.balance.getD p (F64.val 0) = F64.val 0) →
    ∃ accts2, execLoop p accounts (List.replicate accounts.length F64.nan) acc =
      some ((if accounts.isEmpty then acc else F64.nan), accts2) := by
  intro accounts
  induction accounts with
  | nil => exact fun acc _ => ⟨[], by simp [execLoop]⟩
  | cons a rest ih =>
    intro acc hcond
    obtain ⟨hpa, hab⟩ := hcond a (List.mem_cons_self a rest)
    have hstep : a.attempt_withdrawal_with_shortfall F64.nan p =
        some (F64.nan,
          { a with balance := a.balance.set p ((F64.val 0).sub (F64.val 0)) }) := by
      unfold Account.attempt_withdrawal_with_shortfall Account.withdraw_from_period
      rw [if_pos hpa, hab]
      simp [F64.fmin, F64.sub, F64.fle, hpa]
    obtain ⟨accts2, hrec⟩ := ih F64.nan
      (fun x hx => hcond x (List.mem_cons_of_mem a hx))
    refine ⟨{ a with balance := a.balance.set p ((F64.val 0).sub (F64.val 0)) } :: accts2, ?_⟩
    simp only [List.length_cons, List.replicate_succ, execLoop, hstep, add_nan, hrec]
    simp

/-- C8 (amended: with `S = 0` — all balances at `t` zero — the reported
shortfall is `NaN`, the result of `0.0/0.0` propagating, not `w`): for a
nonempty account list with rational balances `b_i` at period `p` summing to
`S`, the strategy assigns account `i` the draw `(b_i/S)·w` when `S ≠ 0`,
and execution reports failure carrying the summed shortfalls exactly when
that sum is nonzero; when all balances are zero the per-account draws are
all `NaN` and execution reports failure carrying `NaN`. -/
theorem withdrawal_strategy_spec (accounts : List Account) (bs : List ℚ)
    (p : ℕ) (w S sf : ℚ) (ws : List ℚ)
    (hne : accounts ≠ [])
    (hmap : accounts.map (fun a => a.balance.getD p (F64.val 0)) = bs.map F64.val)
    (hvalid : ∀ a ∈ accounts, p < a.balance.length)
    (hS : S = bs.sum)
    (hws : ws = bs.map (fun b => b / S * w))
    (hsf : sf = ((ws.zip bs).map (fun pr => pr.1 - min pr.1 pr.2)).sum) :
    (S ≠ 0 →
      WithdrawalStrategy.new (F64.val w) accounts p = some ⟨ws.map F64.val, p⟩
      ∧ ∃ accts2,
          (WithdrawalStrategy.mk (ws.map F64.val) p).execute accounts =
            some ((if sf = 0 then Except.ok () else Except.error (F64.val sf)), accts2))
    ∧ ((∀ b ∈ bs, b = 0) →
      WithdrawalStrategy.new (F64.val w) accounts p =
        some ⟨List.replicate accounts.length F64.nan, p⟩
      ∧ ∃ accts2,
          (WithdrawalStrategy.mk (List.replicate accounts.length F64.nan) p).execute
            accounts = some (Except.error F64.nan, accts2)) := by
  have hall : accounts.all (fun a => decide (p < a.balance.length)) = true := by
    rw [List.all_eq_true]
    intro a ha
    simpa using hvalid a ha
  have htotal : (accounts.map (fun a => a.balance.getD p (F64.val 0))).foldl
      F64.add (F64.val 0) = F64.val bs.sum := by
    rw [hmap, foldl_add_val]
    norm_num
  have hblen : bs.length = accounts.length := by
    have := congrArg List.length hmap
    simpa using this.symm
  constructor
  · intro hS0
    have hS0' : bs.sum ≠ 0 := by rw [← hS]; exact hS0
    have hnew : WithdrawalStrategy.new (F64.val w) accounts p =
        some ⟨ws.map F64.val, p⟩ := by
      unfold WithdrawalStrategy.new
      rw [if_pos hall]
      simp only [htotal, Option.some_inj, WithdrawalStrategy.mk.injEq, and_true]
      have hfac : accounts.map (fun a =>
          ((a.balance.getD p (F64.val 0)).div (F64.val bs.sum)).mul (F64.val w)) =
          (accounts.map (fun a => a.balance.getD p (F64.val 0))).map
            (fun x => (x.div (F64.val bs.sum)).mul (F64.val w)) := by
        rw [List.map_map]
        rfl
      rw [hfac, hmap, List.map_map, hws, hS, List.map_map]
      apply List.map_congr_left
      intro b _
      have hdiv : (F64.val b).div (F64.val bs.sum) = F64.val (b / bs.sum) := by
        simp [F64.div, hS0']
      simp [Function.comp, hdiv, F64.mul]
    refine ⟨hnew, ?_⟩
    obtain ⟨accts2, hloop⟩ := execLoop_val p accounts bs ws 0 hmap hvalid
      (by rw [hws]; simpa using hblen)
    refine ⟨accts2, ?_⟩
    unfold WithdrawalStrategy.execute
    rw [hloop]
    have : (0 : ℚ) + ((ws.zip bs).map (fun pr => pr.1 - min pr.1 pr.2)).sum = sf := by
      rw [hsf]; ring
    rw [this]
    have hbeq : (F64.val sf).beq (F64.val 0) = decide (sf = 0) := rfl
    by_cases hsf0 : sf = 0
    · simp [hbeq, hsf0, F64.beq]
    · simp [hbeq, hsf0, F64.beq]
  · intro hzero
    have hsum0 : bs.sum = 0 := List.sum_eq_zero hzero
    have hnew : WithdrawalStrategy.new (F64.val w) accounts p =
        some ⟨List.replicate accounts.length F64.nan, p⟩ := by
      unfold WithdrawalStrategy.new
      rw [if_pos hall]
      simp only [htotal, hsum0, Option.some_inj, WithdrawalStrategy.mk.injEq, and_true]
      have hfac : accounts.map (fun a =>
          ((a.balance.getD p (F64.val 0)).div (F64.val 0)).mul (F64.val w)) =
          (accounts.map (fun a => a.balance.getD p (F64.val 0))).map
            (fun x => (x.div (F64.val 0)).mul (F64.val w)) := by
        rw [List.map_map]
        rfl
      rw [hfac, hmap, List.map_map]
      have hnanmap : bs.map ((fun x => (x.div (F64.val 0)).mul (F64.val w)) ∘ F64.val) =
          bs.map (fun _ => F64.nan) := by
        apply List.map_congr_left
        intro b hb
        have hb0 : b = 0 := hzero b hb
        subst hb0
        rfl
      have hrep : ∀ (l : List ℚ), l.map (fun _ => F64.nan) =
          List.replicate l.length F64.nan := by
        intro l
        induction l with
        | nil => rfl
        | cons x xs ihx => simp [List.replicate_succ, ihx]
      rw [hnanmap, hrep, hblen]
    refine ⟨hnew, ?_⟩
    have hcond : ∀ a ∈ accounts, p < a.balance.length ∧
        a.balance.getD p (F64.val 0) = F64.val 0 := by
      intro a ha
      refine ⟨hvalid a ha, ?_⟩
      have : a.balance.getD p (F64.val 0) ∈ bs.map F64.val := by
        rw [← hmap]
        exact List.mem_map_of_mem _ ha
      simp only [List.mem_map] at this
      obtain ⟨b, hb, hab⟩ := this
      rw [← hab, hzero b hb]
    obtain ⟨accts2, hloop⟩ := execLoop_nan p accounts (F64.val 0) hcond
    refine ⟨accts2, ?_⟩
    unfold WithdrawalStrategy.execute
    rw [hloop]
    have : accounts.isEmpty = false := by
      cases accounts with
      | nil => exact absurd rfl hne
      | cons a rest => rfl
    rw [this]
    rfl

/-- C8 counterexample: a single account with balance `0.0`: the strategy
for requested amount `1.0` assigns the draw `NaN` (from `0.0/0.0`) and
execution reports `Err(NaN)`, not `Err(1.0)` as the claim states. -/
theorem withdrawal_zero_total_counterexample :
    WithdrawalStrategy.new (F64.val 1) [⟨F64.val 0, [F64.val 0], ⟨[1]⟩, []⟩] 0 =
      some ⟨[F64.nan], 0⟩
    ∧ (WithdrawalStrategy.mk [F64.nan] 0).execute
        [⟨F64.val 0, [F64.val 0], ⟨[1]⟩, []⟩] =
      some (Except.error F64.nan, [⟨F64.val 0, [(F64.val 0).sub (F64.val 0)], ⟨[1]⟩, []⟩])
    ∧ F64.nan ≠ F64.val 1 := by
  refine ⟨?_, ?_, by simp⟩
  · simp [WithdrawalStrategy.new, F64.add, F64.div, F64.mul]
  · simp [WithdrawalStrategy.execute, execLoop,
      Account.attempt_withdrawal_with_shortfall, Account.withdraw_from_period,
      F64.fmin, F64.sub, F64.fle, F64.add, F64.beq, add_nan]

/-- Witness for C8: two accounts with balances 1536 and 512 and a requested
draw of 512 are assigned 384 and 128; both succeed, so the result is `Ok`. -/
theorem withdrawal_strategy_spec_witness :
    ((1536 : ℚ) + (512 + 0) ≠ 0 →
      WithdrawalStrategy.new (F64.val 512)
          [⟨F64.val 0, [F64.val 1536], ⟨[1]⟩, []⟩,
           ⟨F64.val 0, [F64.val 512], ⟨[1]⟩, []⟩] 0 =
        some ⟨[(384 : ℚ), 128].map F64.val, 0⟩
      ∧ ∃ accts2,
          (WithdrawalStrategy.mk ([(384 : ℚ), 128].map F64.val) 0).execute
              [⟨F64.val 0, [F64.val 1536], ⟨[1]⟩, []⟩,
               ⟨F64.val 0, [F64.val 512], ⟨[1]⟩, []⟩] =
            some ((if (0 : ℚ) = 0 then Except.ok () else Except.error (F64.val 0)),
                  accts2))
    ∧ ((∀ b ∈ [(1536 : ℚ), 512], b = 0) →
      WithdrawalStrategy.new (F64.val 512)
          [⟨F64.val 0, [F64.val 1536], ⟨[1]⟩, []⟩,
           ⟨F64.val 0, [F64.val 512], ⟨[1]⟩, []⟩] 0 =
        some ⟨List.replicate 2 F64.nan, 0⟩
      ∧ ∃ accts2,
          (WithdrawalStrategy.mk (List.replicate 2 F64.nan) 0).execute
              [⟨F64.val 0, [F64.val 1536], ⟨[1]⟩, []⟩,
               ⟨F64.val 0, [F64.val 512], ⟨[1]⟩, []⟩] =
            some (Except.error F64.nan, accts2)) := by
  have h := withdrawal_strategy_spec
    [⟨F64.val 0, [F64.val 1536], ⟨[1]⟩, []⟩, ⟨F64.val 0, [F64.val 512], ⟨[1]⟩, []⟩]
    [1536, 512] 0 512 (1536 + (512 + 0)) 0 [384, 128]
    (by simp) rfl (by intro a ha; fin_cases ha <;> simp)
    (by norm_num) (by norm_num) (by norm_num)
  exact h

/-- `l.take (min l.length n) = l.take n`. -/
lemma take_min_length {α : Type} (l : List α) (n : ℕ) :
    l.take (min l.length n) = l.take n := by
  induction l generalizing n with
  | nil => simp
  | cons x xs ih =>
    cases n with
    | zero => simp
    | succ m =>
      simp only [List.length_cons, Nat.succ_min_succ, List.take_succ_cons]
      rw [ih]

/-- The source's block slice agrees with the specification's three-case
description for every in-range draw. -/
lemma blockSlice_eq_spec (pool : List Rate) (b k : ℕ)
    (hb1 : 1 ≤ b) (hbR : b ≤ pool.length) :
    blockSlice pool b k = specBlockSlice pool b k := by
  unfold blockSlice specBlockSlice
  split
  · rfl
  · split
    · rfl
    · rename_i h1 h2
      rw [List.drop_take]
      congr 1
      omega

/-- An in-range draw always selects a nonempty block. -/
lemma blockSlice_ne_nil (pool : List Rate) (b k : ℕ)
    (hb1 : 1 ≤ b) (hbR : b ≤ pool.length) (hk : k < pool.length + b - 1) :
    1 ≤ (blockSlice pool b k).length := by
  unfold blockSlice
  split
  · rw [List.length_take]
    omega
  · split
    · rw [List.length_drop]
      omega
    · rw [List.length_drop, List.length_take]
      omega

/-- The generation loop terminates within the given fuel on exactly `L`
rates, and agrees with the specification's loop. -/
lemma generateLoop_spec (pool : List Rate) (b L : ℕ) (draws : ℕ → ℕ)
    (hb1 : 1 ≤ b) (hbR : b ≤ pool.length)
    (hd : ∀ i, draws i < pool.length + b - 1) :
    ∀ (fuel i : ℕ) (acc : List Rate), acc.length ≤ L → L - acc.length < fuel →
    ∃ out, generateLoop pool b L draws fuel i acc = some out ∧ out.length = L ∧
      specGenerateLoop pool b L draws fuel i acc = some out := by
  intro fuel
  induction fuel with
  | zero => intro i acc _ hfuel; omega
  | succ fuel ih =>
    intro i acc hle hfuel
    have hslice := blockSlice_eq_spec pool b (draws i) hb1 hbR
    have htrunc : (blockSlice pool b (draws i)).take
        (min (blockSlice pool b (draws i)).length (L - acc.length)) =
        (blockSlice pool b (draws i)).take (L - acc.length) :=
      take_min_length _ _
    by_cases hdone :
        (acc ++ (blockSlice pool b (draws i)).take (L - acc.length)).length = L
    · refine ⟨acc ++ (blockSlice pool b (draws i)).take (L - acc.length), ?_, hdone, ?_⟩
      · simp only [generateLoop, htrunc, hdone, if_pos]
      · simp only [specGenerateLoop, ← hslice, hdone, if_pos]
    · have hlen2 : (acc ++ (blockSlice pool b (draws i)).take (L - acc.length)).length ≤ L := by
        rw [List.length_append, List.length_take]
        omega
      have hacclt : acc.length < L := by
        rcases Nat.lt_or_ge acc.length L with h | h
        · exact h
        · exfalso
          have hacc : acc.length = L := le_antisymm hle h
          apply hdone
          rw [List.length_append, List.length_take, hacc]
          omega
      have hne := blockSlice_ne_nil pool b (draws i) hb1 hbR (hd i)
      obtain ⟨out, h1, h2, h3⟩ := ih (i + 1)
        (acc ++ (blockSlice pool b (draws i)).take (L - acc.length)) hlen2
        (by rw [List.length_append, List.length_take]; omega)
      refine ⟨out, ?_, h2, ?_⟩
      · simp only [generateLoop, htrunc, hdone, if_neg, not_false_iff]
        exact h1
      · simp only [specGenerateLoop, ← hslice, hdone, if_neg, not_false_iff]
        exact h3

/-- C4: for a historical pool of `R` rates, a block length `1 ≤ b ≤ R` and
draws all lying in `[0, R + b − 1)`, the generator returns exactly `L`
rates, appending per draw the slice `pool[0..k+1]` when `k < b−1`,
`pool[k−b+1..R]` when `k ≥ R` and `pool[k−b+1..k+1]` otherwise
(`specBlockSlice`, transcribed from the specification), truncated so the
total never exceeds `L` (`specGenerateLoop`). -/
theorem generate_rates_follows_block_bootstrap (pool : List Rate) (b L : ℕ)
    (draws : ℕ → ℕ) (hb1 : 1 ≤ b) (hbR : b ≤ pool.length)
    (hd : ∀ i, draws i < pool.length + b - 1) :
    ∃ out, generate_rates_with_distribution pool b L draws = some out ∧
      out.length = L ∧
      specGenerateLoop pool b L draws (L + 1) 0 [] = some out ∧
      ∀ k, blockSlice pool b k = specBlockSlice pool b k := by
  obtain ⟨out, h1, h2, h3⟩ := generateLoop_spec pool b L draws hb1 hbR hd
    (L + 1) 0 [] (by simp) (by simp)
  refine ⟨out, ?_, h2, h3, fun k => blockSlice_eq_spec pool b k hb1 hbR⟩
  unfold generate_rates_with_distribution
  rw [if_pos ⟨hbR, by omega, by omega⟩]
  exact h1

/-- Witness for C4 at the Rust regression test's inputs: pool `[0..6)`,
block length 3, requested length 18, draws cycling `0..8`. -/
theorem generate_rates_follows_block_bootstrap_witness :
    ∃ out, generate_rates_with_distribution
        [⟨0, 0, 0⟩, ⟨1, 1, 1⟩, ⟨2, 2, 2⟩, ⟨3, 3, 3⟩, ⟨4, 4, 4⟩, ⟨5, 5, 5⟩]
        3 18 (fun i => i % 8) = some out ∧
      out.length = 18 ∧
      specGenerateLoop
        [⟨0, 0, 0⟩, ⟨1, 1, 1⟩, ⟨2, 2, 2⟩, ⟨3, 3, 3⟩, ⟨4, 4, 4⟩, ⟨5, 5, 5⟩]
        3 18 (fun i => i % 8) (18 + 1) 0 [] = some out ∧
      ∀ k, blockSlice
          [⟨0, 0, 0⟩, ⟨1, 1, 1⟩, ⟨2, 2, 2⟩, ⟨3, 3, 3⟩, ⟨4, 4, 4⟩, ⟨5, 5, 5⟩] 3 k =
        specBlockSlice
          [⟨0, 0, 0⟩, ⟨1, 1, 1⟩, ⟨2, 2, 2⟩, ⟨3, 3, 3⟩, ⟨4, 4, 4⟩, ⟨5, 5, 5⟩] 3 k :=
  generate_rates_follows_block_bootstrap _ 3 18 (fun i => i % 8)
    (by norm_num) (by simp)
    (fun i => by
      simp only [List.length_cons, List.length_nil]
      exact lt_of_lt_of_le (Nat.mod_lt i (by norm_num)) (by norm_num))

/-- After the head, every `enumFrom` position is nonzero, so every later
year is replicated exactly 12 times. -/
lemma enumFrom_succ_replicate_map (offset : ℕ) : ∀ (l : List ℝ) (n : ℕ),
    (l.enumFrom (n + 1)).map (fun pr =>
      List.replicate (if pr.1 = 0 then 12 - offset else 12) (monthlySurvival pr.2)) =
    l.map (fun p => List.replicate 12 (monthlySurvival p)) := by
  intro l
  induction l with
  | nil => intro n; rfl
  | cons x xs ih =>
    intro n
    simp [List.enumFrom, ih (n + 1)]

/-- `convert_annual_death_to_monthly_life` on a nonempty table: the head
survival replicated `12 - offset` times, then each further year's survival
replicated 12 times. -/
lemma convert_annual_death_eq (d0 : ℝ) (rest : List ℝ) (offset : ℕ)
    (hoff : offset < 12) :
    convert_annual_death_to_monthly_life (d0 :: rest) offset =
      some (List.replicate (12 - offset) (monthlySurvival d0) ++
        (rest.map (fun p => List.replicate 12 (monthlySurvival p))).flatten) := by
  unfold convert_annual_death_to_monthly_life
  rw [if_pos ⟨by simp, hoff⟩]
  congr 1
  rw [List.enum_cons]
  simp only [List.map_cons, List.flatten_cons]
  rw [enumFrom_succ_replicate_map offset rest 0]
  simp

/-- The Bernoulli loop returns the first failing trial at or after its
start index. -/
lemma calculatePeriodsLoop_first_failure (lived : ℕ → ℝ → Bool) (v : List ℝ) :
    ∀ (fuel start i : ℕ), calculatePeriodsLoop lived v fuel start = some i →
      start ≤ i
      ∧ lived i (v.getD (min i (v.length - 1)) 0) = false
      ∧ ∀ j, start ≤ j → j < i →
          lived j (v.getD (min j (v.length - 1)) 0) = true := by
  intro fuel
  induction fuel with
  | zero => intro start i h; exact absurd h (by simp [calculatePeriodsLoop])
  | succ fuel ih =>
    intro start i h
    rw [calculatePeriodsLoop] at h
    split at h
    · rename_i hcond
      rw [Option.some_inj] at h
      subst h
      exact ⟨le_refl _, hcond, fun j hj1 hj2 => absurd hj2 (by omega)⟩
    · rename_i hcond
      obtain ⟨h1, h2, h3⟩ := ih (start + 1) i h
      refine ⟨by omega, h2, ?_⟩
      intro j hj1 hj2
      rcases Nat.eq_or_lt_of_le hj1 with heq | hlt
      · subst heq
        revert hcond
        cases lived start (v.getD (min start (v.length - 1)) 0) <;> simp
      · exact h3 j hlt hj2

/-- The clamped index reads `v[j]` in range and the last entry past the
end. -/
lemma getD_min_clamp (v : List ℝ) (hv : v ≠ []) (j : ℕ) :
    v.getD (min j (v.length - 1)) 0 =
      if j < v.length then v.getD j 0 else v.getLastD 0 := by
  have hpos : 0 < v.length := List.length_pos.mpr hv
  by_cases h : j < v.length
  · rw [if_pos h]
    congr 1
    omega
  · rw [if_neg h]
    have hmin : min j (v.length - 1) = v.length - 1 := by omega
    rw [hmin, List.getD_eq_getElem?_getD, List.getLastD_eq_getLast?,
      ← List.getLast?_eq_getElem?]

/-- C5: for a nonempty annual death table `d0 :: rest` and offset
`o ∈ [0,12)`, the monthly survival vector is `(1−d0)^(1/12)` replicated
`12−o` times followed by each subsequent `(1−d[y])^(1/12)` replicated 12
times, its total length is `12·A − o`; the sampled lifespan is the index of
the first failing Bernoulli trial, where trials past the end of the vector
use its last entry. -/
theorem mortality_sampler_spec (lived : ℕ → ℝ → Bool) (d0 : ℝ)
    (rest : List ℝ) (offset : ℕ) (hoff : offset < 12) :
    ∃ v, convert_annual_death_to_monthly_life (d0 :: rest) offset = some v
      ∧ v = List.replicate (12 - offset) (monthlySurvival d0) ++
          (rest.map (fun p => List.replicate 12 (monthlySurvival p))).flatten
      ∧ v.length = 12 * (d0 :: rest).length - offset
      ∧ (∀ fuel, calculate_periods lived (d0 :: rest) offset fuel =
          some (calculatePeriodsLoop lived v fuel 0))
      ∧ ∀ fuel i, calculatePeriodsLoop lived v fuel 0 = some i →
          (lived i (if i < v.length then v.getD i 0 else v.getLastD 0) = false
           ∧ ∀ j < i,
              lived j (if j < v.length then v.getD j 0 else v.getLastD 0) = true) := by
  refine ⟨List.replicate (12 - offset) (monthlySurvival d0) ++
    (rest.map (fun p => List.replicate 12 (monthlySurvival p))).flatten,
    convert_annual_death_eq d0 rest offset hoff, rfl, ?_, ?_, ?_⟩
  · have hsum : ∀ (l : List ℝ), (l.map (fun _ => (12 : ℕ))).sum = 12 * l.length := by
      intro l
      induction l with
      | nil => simp
      | cons x xs ih => simp [ih]; ring
    rw [List.length_append, List.length_replicate, List.length_flatten,
      List.map_map]
    have hcomp : (List.length ∘ fun p => List.replicate 12 (monthlySurvival p)) =
        fun _ : ℝ => (12 : ℕ) := by
      funext p
      simp
    rw [hcomp, hsum, List.length_cons]
    omega
  · intro fuel
    unfold calculate_periods
    rw [convert_annual_death_eq d0 rest offset hoff]
    rfl
  · intro fuel i h
    have hvne : (List.replicate (12 - offset) (monthlySurvival d0) ++
        (rest.map (fun p => List.replicate 12 (monthlySurvival p))).flatten) ≠ [] := by
      have : 0 < (12 - offset) := by omega
      simp [List.append_eq_nil, List.replicate_eq_nil_iff]
      omega
    obtain ⟨-, h2, h3⟩ := calculatePeriodsLoop_first_failure lived _ fuel 0 i h
    rw [getD_min_clamp _ hvne] at h2
    refine ⟨h2, fun j hj => ?_⟩
    have := h3 j (Nat.zero_le j) hj
    rw [getD_min_clamp _ hvne] at this
    exact this

/-- Witness for C5: a one-year table with offset 0; the trials all succeed
until index 14, so the sampled lifespan is 14. -/
theorem mortality_sampler_spec_witness :
    ∃ v, convert_annual_death_to_monthly_life [(1 : ℝ) / 2] 0 = some v
      ∧ v = List.replicate (12 - 0) (monthlySurvival ((1 : ℝ) / 2)) ++
          (([] : List ℝ).map (fun p => List.replicate 12 (monthlySurvival p))).flatten
      ∧ v.length = 12 * ([(1 : ℝ) / 2]).length - 0
      ∧ (∀ fuel, calculate_periods (fun i _ => decide (i < 14)) [(1 : ℝ) / 2] 0 fuel =
          some (calculatePeriodsLoop (fun i _ => decide (i < 14)) v fuel 0))
      ∧ ∀ fuel i,
          calculatePeriodsLoop (fun i _ => decide (i < 14)) v fuel 0 = some i →
          ((fun i _ => decide (i < 14)) i
              (if i < v.length then v.getD i 0 else v.getLastD 0) = false
           ∧ ∀ j < i, (fun i _ => decide (i < 14)) j
              (if j < v.length then v.getD j 0 else v.getLastD 0) = true) :=
  mortality_sampler_spec (fun i _ => decide (i < 14)) ((1 : ℝ) / 2) [] 0
    (by norm_num)

/-- Two periods in the same 12-month block starting at a multiple of 12
round down to the same year begin. -/
lemma roundDownToYear_eq_of_mem_year (y p : ℕ) (hy : y % 12 = 0)
    (h1 : y ≤ p) (h2 : p < y + 12) : roundDownToYear p = y := by
  unfold roundDownToYear
  omega

/-- Updating `g[i] += a` inside the summed window adds `a` to the window
sum. -/
lemma take_drop_set_sum (a : ℚ) : ∀ (g : List ℚ) (i y n : ℕ),
    y ≤ i → i < y + n → i < g.length →
    (((g.set i (g.getD i 0 + a)).drop y).take n).sum =
      ((g.drop y).take n).sum + a := by
  intro g
  induction g with
  | nil =>
    intro i y n _ _ h3
    simp at h3
  | cons x xs ih =>
    intro i y n h1 h2 h3
    cases i with
    | zero =>
      have hy : y = 0 := Nat.le_zero.mp h1
      subst hy
      cases n with
      | zero => omega
      | succ m =>
        simp only [List.getD_cons_zero, List.set_cons_zero, List.drop_zero,
          List.take_succ_cons, List.sum_cons]
        ring
    | succ i2 =>
      cases y with
      | zero =>
        cases n with
        | zero => omega
        | succ m =>
          simp only [List.getD_cons_succ, List.set_cons_succ, List.drop_zero,
            List.take_succ_cons, List.sum_cons]
          rw [show ((xs.set i2 (xs.getD i2 0 + a)).take m) =
            (((xs.set i2 (xs.getD i2 0 + a)).drop 0).take m) by rw [List.drop_zero],
            show (xs.take m) = ((xs.drop 0).take m) by rw [List.drop_zero]]
          rw [ih i2 0 m (Nat.zero_le _) (by omega) (by simpa using h3)]
          ring
      | succ y2 =>
        simp only [List.getD_cons_succ, List.set_cons_succ, List.drop_succ_cons]
        exact ih i2 y2 n (by omega) (by omega) (by simpa using h3)

/-- `sliceSum` version of `take_drop_set_sum`. -/
lemma sliceSum_set (g : List ℚ) (i y q : ℕ) (a : ℚ)
    (h1 : y ≤ i) (h2 : i ≤ q) (h3 : i < g.length) :
    sliceSum (g.set i (g.getD i 0 + a)) y q = sliceSum g y q + a := by
  unfold sliceSum
  exact take_drop_set_sum a g i y (q + 1 - y) h1 (by omega) h3

/-- A window of zero entries sums to zero. -/
lemma take_drop_zero_sum : ∀ (g : List ℚ) (y n : ℕ),
    (∀ j, y ≤ j → j < y + n → g.getD j 0 = 0) →
    ((g.drop y).take n).sum = 0 := by
  intro g
  induction g with
  | nil =>
    intro y n _
    simp
  | cons x xs ih =>
    intro y n h
    cases y with
    | zero =>
      cases n with
      | zero => simp
      | succ m =>
        rw [List.drop_zero, List.take_succ_cons, List.sum_cons]
        have hx : x = 0 := by
          have := h 0 (Nat.le_refl 0) (by omega)
          simpa using this
        have hxs : ((xs.drop 0).take m).sum = 0 := by
          refine ih 0 m (fun j hj1 hj2 => ?_)
          have := h (j + 1) (by omega) (by omega)
          simpa using this
        rw [List.drop_zero] at hxs
        rw [hx, hxs]
        ring
    | succ y2 =>
      rw [List.drop_succ_cons]
      refine ih y2 n (fun j hj1 hj2 => ?_)
      have := h (j + 1) (by omega) (by omega)
      simpa using this

/-- `sliceSum` version of `take_drop_zero_sum` over a year block. -/
lemma sliceSum_zero_block (g : List ℚ) (y q : ℕ)
    (h : ∀ j, y ≤ j → j < y + 12 → g.getD j 0 = 0) (hq : q < y + 12) :
    sliceSum g y q = 0 := by
  unfold sliceSum
  exact take_drop_zero_sum g y (q + 1 - y) (fun j hj1 hj2 => h j hj1 (by omega))

/-- In a bracket list sorted by ascending floor whose first floor is 0,
every floor is nonnegative. -/
lemma floors_nonneg (b0 : TaxBracket) (bs : List TaxBracket)
    (h0 : b0.floor = 0)
    (hsort : List.Chain' (fun x z => x.floor ≤ z.floor) (b0 :: bs)) :
    ∀ b ∈ b0 :: bs, 0 ≤ b.floor := by
  have hpair : List.Pairwise (fun x z : TaxBracket => x.floor ≤ z.floor) (b0 :: bs) := by
    haveI : IsTrans TaxBracket (fun x z : TaxBracket => x.floor ≤ z.floor) :=
      ⟨fun a b c h1 h2 => le_trans h1 h2⟩
    exact List.chain'_iff_pairwise.mp hsort
  rw [List.pairwise_cons] at hpair
  intro b hb
  rcases List.mem_cons.mp hb with hb | hb
  · subst hb
    rw [h0]
  · have := hpair.1 b hb
    rw [h0] at this
    exact this

/-- A successful inflation factor over nonnegative inflation rates is
nonnegative. -/
lemma inflationFactor_nonneg (rs : List Rate) (adjust : Bool) (yb : ℕ) (f : ℚ)
    (hinfl : ∀ r ∈ rs, 0 ≤ r.inflation)
    (h : inflationFactor rs adjust yb = some f) : 0 ≤ f := by
  unfold inflationFactor at h
  split at h
  · split at h
    · rw [Option.some_inj] at h
      subst h
      refine List.prod_nonneg ?_
      intro a ha
      simp only [List.mem_map] at ha
      obtain ⟨r, hr, rfl⟩ := ha
      exact hinfl r (List.mem_of_mem_drop (List.mem_of_mem_take hr))
    · exact absurd h (by simp)
  · rw [Option.some_inj] at h
    subst h
    norm_num

/-- The bracket-pair loop taxes nonpositive money as zero when the bracket
inflation factor and all floors are nonnegative. -/
lemma bracketPairTaxes_nonpos (bI money : ℚ) (hm : money ≤ 0) (hbI : 0 ≤ bI) :
    ∀ (brackets : List TaxBracket), (∀ b ∈ brackets, 0 ≤ b.floor) →
      bracketPairTaxes bI money brackets = 0 := by
  intro brackets
  induction brackets with
  | nil => intro _; rfl
  | cons b0 rest ih =>
    intro hfl
    cases rest with
    | nil => rfl
    | cons b1 rest2 =>
      rw [bracketPairTaxes]
      by_cases h : money < b0.floor * bI
      · rw [if_pos h]
      · rw [if_neg h]
        push_neg at h
        have hb0 : 0 ≤ b0.floor * bI :=
          mul_nonneg (hfl b0 (List.mem_cons_self _ _)) hbI
        have hb1 : 0 ≤ b1.floor * bI :=
          mul_nonneg (hfl b1 (List.mem_cons_of_mem _ (List.mem_cons_self _ _))) hbI
        have hm0 : money = 0 := le_antisymm hm (le_trans hb0 h)
        have hb0' : b0.floor * bI = 0 := le_antisymm (hm0 ▸ h) hb0
        have hmin : min money (b1.floor * bI) = money := by
          apply min_eq_left
          rw [hm0]
          exact hb1
        rw [ih (fun b hb => hfl b (List.mem_cons_of_mem _ hb)), hmin, hb0', hm0]
        ring

/-- The top-bracket term taxes nonpositive money as zero under the same
sign conditions. -/
lemma lastBracketTax_nonpos (bI money : ℚ) (brackets : List TaxBracket)
    (hm : money ≤ 0) (hbI : 0 ≤ bI) (hfl : ∀ b ∈ brackets, 0 ≤ b.floor) :
    lastBracketTax bI money brackets = 0 := by
  cases hlast : brackets.getLast? with
  | none =>
    unfold lastBracketTax
    rw [hlast]
  | some lastb =>
    have hmem : lastb ∈ brackets := List.mem_of_mem_getLast? hlast
    unfold lastBracketTax
    rw [hlast]
    show (if lastb.floor * bI < money
      then (money - lastb.floor * bI) * lastb.rate else 0) = 0
    rw [if_neg]
    intro hcon
    have : 0 ≤ lastb.floor * bI := mul_nonneg (hfl lastb hmem) hbI
    linarith

/-- With a nonempty bracket list sorted by ascending floor from 0, a
nonnegative deduction and nonnegative inflation rates,
`calculate_tax_amount(0)` is zero whenever it succeeds. -/
lemma calcTaxAtYearBegin_zero (st : TaxSettings) (rs : List Rate) (yb : ℕ)
    (b0 : TaxBracket) (bs : List TaxBracket)
    (hbr : st.brackets = b0 :: bs) (hb0 : b0.floor = 0)
    (hsort : List.Chain' (fun x z => x.floor ≤ z.floor) st.brackets)
    (hded : 0 ≤ st.deduction)
    (hinfl : ∀ r ∈ rs, 0 ≤ r.inflation) :
    ∀ c, calcTaxAtYearBegin st rs 0 yb = some c → c = 0 := by
  intro c h
  unfold calcTaxAtYearBegin at h
  rw [if_neg (by rw [hbr]; simp)] at h
  split at h
  · rename_i dI bI hdI hbI
    rw [Option.some_inj] at h
    subst h
    have hdI0 : 0 ≤ dI := inflationFactor_nonneg rs _ yb dI hinfl hdI
    have hbI0 : 0 ≤ bI := inflationFactor_nonneg rs _ yb bI hinfl hbI
    have hmoney : (0 : ℚ) - st.deduction * dI ≤ 0 := by
      have : 0 ≤ st.deduction * dI := mul_nonneg hded hdI0
      linarith
    have hfl : ∀ b ∈ st.brackets, 0 ≤ b.floor := by
      rw [hbr]
      exact floors_nonneg b0 bs hb0 (hbr ▸ hsort)
    rw [bracketPairTaxes_nonpos bI _ hmoney hbI0 st.brackets hfl,
      lastBracketTax_nonpos bI _ st.brackets hmoney hbI0 hfl]
    ring
  · exact absurd h (by simp)

/-- One `Taxable` collection step, rewritten through the year's
cumulative gross income `S` and the already-known tax `c0` on `S`. -/
lemma collect_taxable_step (st : TaxSettings) (rs : List Rate) (g : List ℚ)
    (a : ℚ) (p y : ℕ) (S c0 : ℚ)
    (hround : roundDownToYear p = y)
    (hpg : p < g.length)
    (hcum : sliceSum g y p = S)
    (hc0 : calcTaxAtYearBegin st rs S y = some c0) :
    Tax.collect_income_taxes ⟨st, rs, g⟩ (Money.Taxable a) p =
      match calcTaxAtYearBegin st rs (S + a) y with
      | none => none
      | some T2 => some (⟨T2 - c0, a - (T2 - c0)⟩,
          ⟨st, rs, g.set p (g.getD p 0 + a)⟩) := by
  simp only [Tax.collect_income_taxes, Tax.calculate_tax_amount]
  rw [if_pos hpg, hround, hcum, hc0]



/-- The telescoping core: starting from a window summing to `S`, a
nondecreasing in-year sequence of `Taxable` collections accumulates total
taxes `calc(S + Σ amounts) - calc(S)`. -/
lemma collectAll_telescope (st : TaxSettings) (rs : List Rate) (y : ℕ)
    (hy : y % 12 = 0) :
    ∀ (cs : List (ℚ × ℕ)) (g : List ℚ) (S : ℚ) (low : ℕ) (total : ℚ) (tfin : Tax),
      y ≤ low →
      (∀ c ∈ cs, low ≤ c.2 ∧ c.2 < y + 12 ∧ c.2 < g.length) →
      List.Pairwise (fun c1 c2 => c1.2 ≤ c2.2) cs →
      (∀ q, low ≤ q → q < y + 12 → sliceSum g y q = S) →
      collectAll ⟨st, rs, g⟩ cs = some (total, tfin) →
      ∀ c0, calcTaxAtYearBegin st rs S y = some c0 →
        ∃ cN, calcTaxAtYearBegin st rs (S + (cs.map Prod.fst).sum) y = some cN ∧
          total = cN - c0 := by
  intro cs
  induction cs with
  | nil =>
    intro g S low total tfin _ _ _ _ hrun c0 hc0
    rw [collectAll, Option.some_inj] at hrun
    injection hrun with h1 h2
    subst h1
    refine ⟨c0, ?_, by ring⟩
    simpa using hc0
  | cons c rest ih =>
    intro g S low total tfin hylow hmem hpair hsum hrun c0 hc0
    obtain ⟨a, p⟩ := c
    obtain ⟨hlowp, hpy, hpg⟩ := hmem (a, p) (List.mem_cons_self _ _)
    have hyp : y ≤ p := le_trans hylow hlowp
    have hround : roundDownToYear p = y := roundDownToYear_eq_of_mem_year y p hy hyp hpy
    have hcum : sliceSum g y p = S := hsum p hlowp hpy
    rw [collectAll, collect_taxable_step st rs g a p y S c0 hround hpg hcum hc0] at hrun
    cases hT2 : calcTaxAtYearBegin st rs (S + a) y with
    | none =>
      rw [hT2] at hrun
      exact absurd hrun (by simp)
    | some T2 =>
      rw [hT2] at hrun
      simp only [] at hrun
      cases hrest : collectAll ⟨st, rs, g.set p (g.getD p 0 + a)⟩ rest with
      | none =>
        rw [hrest] at hrun
        exact absurd hrun (by simp)
      | some pr =>
        obtain ⟨sumRest, t3⟩ := pr
        rw [hrest] at hrun
        simp only [] at hrun
        rw [Option.some_inj] at hrun
        injection hrun with h1 h2
        rw [List.pairwise_cons] at hpair
        obtain ⟨hhead, hpair2⟩ := hpair
        obtain ⟨cN, hN1, hN2⟩ := ih (g.set p (g.getD p 0 + a)) (S + a) p sumRest t3
          hyp
          (fun c2 hc2 => ⟨hhead c2 hc2, (hmem c2 (List.mem_cons_of_mem _ hc2)).2.1,
            by rw [List.length_set]; exact (hmem c2 (List.mem_cons_of_mem _ hc2)).2.2⟩)
          hpair2
          (fun q hq1 hq2 => by
            rw [sliceSum_set g p y q a hyp hq1 hpg, hsum q (le_trans hlowp hq1) hq2])
          hrest T2 hT2
        refine ⟨cN, ?_, ?_⟩
        · rw [show S + (((a, p) :: rest).map Prod.fst).sum =
            S + a + (rest.map Prod.fst).sum by simp; ring]
          exact hN1
        · rw [← h1, hN2]
          ring



/-- `getLastD` of a nonempty list is a member. -/
lemma getLastD_mem {α : Type} (d : α) : ∀ (l : List α), l ≠ [] → l.getLastD d ∈ l := by
  intro l
  induction l with
  | nil => intro h; exact absurd rfl h
  | cons x xs ih =>
    intro _
    cases xs with
    | nil => simp
    | cons z zs =>
      have hmem := ih (by simp)
      rw [List.getLastD_eq_getLast?] at hmem ⊢
      rw [List.getLast?_cons_cons]
      exact List.mem_cons_of_mem x hmem

/-- C2 (amended: additionally assuming every rate's inflation entry in the
collector's rate vector is nonnegative): for a collector whose brackets are
nonempty, sorted by ascending floor starting at 0, whose deduction is
nonnegative and whose gross-income entries in the year block are zero, the
sum of the taxes returned by a nondecreasing in-year sequence of `Taxable`
collections equals `calculate_tax_amount` of the total amount, evaluated at
the last collection period (the sum telescopes and `calc(0) = 0`). -/
theorem collect_income_taxes_year_telescope
    (st : TaxSettings) (rs : List Rate) (g : List ℚ) (y : ℕ)
    (b0 : TaxBracket) (bs : List TaxBracket)
    (hbr : st.brackets = b0 :: bs)
    (hb0 : b0.floor = 0)
    (hsort : List.Chain' (fun x z => x.floor ≤ z.floor) st.brackets)
    (hded : 0 ≤ st.deduction)
    (hinfl : ∀ r ∈ rs, 0 ≤ r.inflation)
    (hy : y % 12 = 0)
    (hzero : ∀ j, y ≤ j → j < y + 12 → g.getD j 0 = 0)
    (cs : List (ℚ × ℕ)) (hne : cs ≠ [])
    (hmem : ∀ c ∈ cs, y ≤ c.2 ∧ c.2 < y + 12 ∧ c.2 < g.length)
    (hpair : List.Pairwise (fun c1 c2 => c1.2 ≤ c2.2) cs)
    (total : ℚ) (tfin : Tax)
    (hrun : collectAll ⟨st, rs, g⟩ cs = some (total, tfin)) :
    Tax.calculate_tax_amount ⟨st, rs, g⟩ ((cs.map Prod.fst).sum)
      ((cs.getLastD (0, 0)).2) = some total := by
  cases cs with
  | nil => exact absurd rfl hne
  | cons c rest =>
    obtain ⟨a, p⟩ := c
    obtain ⟨hyp, hpy, hpg⟩ := hmem (a, p) (List.mem_cons_self _ _)
    have hround : roundDownToYear p = y := roundDownToYear_eq_of_mem_year y p hy hyp hpy
    have hcum : sliceSum g y p = 0 := sliceSum_zero_block g y p hzero hpy
    cases hc0 : calcTaxAtYearBegin st rs 0 y with
    | none =>
      exfalso
      rw [collectAll] at hrun
      simp only [Tax.collect_income_taxes, Tax.calculate_tax_amount] at hrun
      rw [if_pos hpg, hround, hcum, hc0] at hrun
      simp at hrun
    | some c0 =>
      have hc00 : c0 = 0 :=
        calcTaxAtYearBegin_zero st rs y b0 bs hbr hb0 hsort hded hinfl c0 hc0
      obtain ⟨cN, hN1, hN2⟩ := collectAll_telescope st rs y hy ((a, p) :: rest) g 0 y
        total tfin (le_refl y) hmem hpair
        (fun q _ hq2 => sliceSum_zero_block g y q hzero hq2)
        hrun c0 hc0
      have hplastmem : ((a, p) :: rest).getLastD (0, 0) ∈ (a, p) :: rest :=
        getLastD_mem (0, 0) _ (by simp)
      obtain ⟨hply, hplyy, -⟩ := hmem _ hplastmem
      have hroundlast : roundDownToYear ((((a, p) :: rest).getLastD (0, 0)).2) = y :=
        roundDownToYear_eq_of_mem_year y _ hy hply hplyy
      unfold Tax.calculate_tax_amount
      rw [hroundlast]
      show calcTaxAtYearBegin st rs (((a, p) :: rest).map Prod.fst).sum y = some total
      have hsumeq : (0 : ℚ) + (((a, p) :: rest).map Prod.fst).sum =
          (((a, p) :: rest).map Prod.fst).sum := by ring
      rw [hsumeq] at hN1
      rw [hN1, Option.some_inj, hN2, hc00]
      ring



/-- C2 counterexample: with a negative inflation entry (which the claim
does not exclude) and inflation-adjusted bracket floors, a single
`Taxable(1000)` collection at period 12 collects 120 in taxes, but
`calculate_tax_amount(1000, 12) = 140`, so the year's taxes do not sum to
the year-end tax amount even though the brackets are sorted starting at 0
and the deduction is nonnegative. -/
theorem collect_taxes_telescope_counterexample :
    (collectAll ⟨⟨[⟨0, 1/10⟩, ⟨1000, 12/100⟩], true, 0, false⟩,
        ⟨1, 1, -1⟩ :: List.replicate 23 ⟨1, 1, 1⟩, List.replicate 24 0⟩
      [((1000 : ℚ), (12 : ℕ))]).map Prod.fst = some 120
    ∧ Tax.calculate_tax_amount ⟨⟨[⟨0, 1/10⟩, ⟨1000, 12/100⟩], true, 0, false⟩,
        ⟨1, 1, -1⟩ :: List.replicate 23 ⟨1, 1, 1⟩, List.replicate 24 0⟩
        (([((1000 : ℚ), (12 : ℕ))].map Prod.fst).sum)
        (([((1000 : ℚ), (12 : ℕ))].getLastD (0, 0)).2) = some 140
    ∧ (140 : ℚ) ≠ 120
    ∧ List.Chain' (fun x z : TaxBracket => x.floor ≤ z.floor)
        [⟨0, 1/10⟩, ⟨1000, 12/100⟩]
    ∧ (0 : ℚ) ≤ 0
    ∧ List.Pairwise (fun c1 c2 : ℚ × ℕ => c1.2 ≤ c2.2) [((1000 : ℚ), (12 : ℕ))]
    ∧ ∀ c ∈ [((1000 : ℚ), (12 : ℕ))], 12 ≤ c.2 ∧ c.2 < 12 + 12 := by
  refine ⟨?_, ?_, by norm_num, by norm_num [List.chain'_cons], le_refl 0,
    by simp, by simp⟩
  · norm_num [collectAll, Tax.collect_income_taxes, Tax.calculate_tax_amount,
      calcTaxAtYearBegin, inflationFactor, bracketPairTaxes, lastBracketTax,
      sliceSum, roundDownToYear, List.replicate]
    simp
    norm_num
  · norm_num [Tax.calculate_tax_amount, calcTaxAtYearBegin, inflationFactor,
      bracketPairTaxes, lastBracketTax, roundDownToYear, List.replicate]
    simp



/-- Witness for C2's amended theorem: a 10% flat collector over a zeroed
12-month year collecting `Taxable(100)` at periods 0 and 3 pays 20 in
total, which is `calculate_tax_amount(200, 3)`. -/
theorem collect_income_taxes_year_telescope_witness :
    Tax.calculate_tax_amount
      ⟨⟨[⟨0, 1/10⟩], false, 0, false⟩, [], List.replicate 12 0⟩
      (([((100 : ℚ), (0 : ℕ)), ((100 : ℚ), (3 : ℕ))].map Prod.fst).sum)
      (([((100 : ℚ), (0 : ℕ)), ((100 : ℚ), (3 : ℕ))].getLastD (0, 0)).2) =
      some 20 :=
  collect_income_taxes_year_telescope
    ⟨[⟨0, 1/10⟩], false, 0, false⟩ [] (List.replicate 12 0) 0
    ⟨0, 1/10⟩ [] rfl rfl (by simp) (le_refl 0) (by simp) rfl
    (by
      intro j _ _
      rw [List.getD_eq_getElem?_getD, List.getElem?_replicate]
      split <;> rfl)
    [((100 : ℚ), (0 : ℕ)), ((100 : ℚ), (3 : ℕ))] (by simp)
    (by intro c hc; fin_cases hc <;> simp)
    (by simp)
    20 ⟨⟨[⟨0, 1/10⟩], false, 0, false⟩, [],
      [100, 0, 0, 100, 0, 0, 0, 0, 0, 0, 0, 0]⟩
    (by
      norm_num [collectAll, Tax.collect_income_taxes, Tax.calculate_tax_amount,
        calcTaxAtYearBegin, inflationFactor, bracketPairTaxes, lastBracketTax,
        sliceSum, roundDownToYear, List.replicate]
      try simp
      try norm_num)

end Retirement
